import Mathlib

/-!
# A shallow embedding of the MBLibrary Modbus TCP server core

This file embeds, definition by definition, the protocol core of the
MBLibrary repository: the byte/word conversion utilities
(`ModbusUtilities.cpp`), the MBAP header framer (`ADU.cpp`,
`ModbusPDU.cpp`), the function-code machinery (`Modbus.cpp`), the
`DataArea` register store (`ModbusDataArea.h`) and the PDU request
processor (`ModbusPDU.cpp`).  Bytes are modelled as `Nat` values
(< 256 in every reachable state), 16-bit words as `Nat` values with
explicit `% 65536` where the C++ performs a narrowing cast, and
register addresses as `Int` (the C++ declares them `int`).  C++
functions that throw are modelled with `Except CppException`.

Theorems about the embedded definitions follow the definitions.
-/

namespace Modbus

/-- The C++ exceptions thrown by the library, collapsed to the cases the
core distinguishes.  `oobRead` stands for an out-of-bounds
`std::vector` element access, which is undefined behaviour in the
source; the embedding surfaces it as a distinct error value. -/
inductive CppException where
  | invalidFunctionCode
  | outOfRange
  | invalidArgument
  | oobRead
  deriving DecidableEq, Repr

/-! ## ModbusUtilities.cpp -/

/-- `Modbus::Utilities::twoBytesToUint16`:
`(static_cast<uint16_t>(msb) << 8) | static_cast<uint16_t>(lsb)`.
The final `% 65536` models the `uint16_t` return type. -/
def twoBytesToUint16 (msb lsb : Nat) : Nat :=
  ((msb <<< 8) ||| lsb) % 65536

/-- `Modbus::Utilities::uint16ToTwoBytes`:
`{static_cast<std::byte>(value >> 8), static_cast<std::byte>(value & 0xFF)}`.
The `% 256` on the first component models the cast to `std::byte`. -/
def uint16ToTwoBytes (value : Nat) : Nat × Nat :=
  ((value >>> 8) % 256, value &&& 0xFF)

/-- `Modbus::Utilities::bytesToBooleans`: bit `j` of byte `i` (least
significant first) becomes boolean `8*i + j`. -/
def byteToBooleans (b : Nat) : List Bool :=
  (List.range 8).map (fun j => (b &&& (1 <<< j)) != 0)

/-! ## Modbus.cpp -/

/-- `calculateBytesFromBits` from `Modbus.cpp`. -/
def calculateBytesFromBits (numberOfBits : Nat) : Nat :=
  numberOfBits / 8 + (if numberOfBits % 8 == 0 then 0 else 1)

/-- The `Modbus::FunctionCode` enumeration from `Modbus.h`. -/
inductive FunctionCode where
  | ReadCoils
  | ReadDiscreteInputs
  | ReadHoldingRegisters
  | ReadInputRegister
  | WriteSingleCoil
  | WriteSingleRegister
  | ReadExceptionStatus
  | Diagnostic
  | WriteMultipleRegisters
  | ReportSlaveID
  | ReadFileRecord
  | WriteFileRecord
  | GetComEventCounter
  | GetComEventLog
  | WriteMultipleCoils
  | ReadWriteMultipleRegisters
  | ReadFifoQueue
  | ReadDeviceIdentification
  deriving DecidableEq, Repr

/-- The numeric value of each `FunctionCode` enumerator. -/
def FunctionCode.toByte : FunctionCode → Nat
  | .ReadCoils => 0x01
  | .ReadDiscreteInputs => 0x02
  | .ReadHoldingRegisters => 0x03
  | .ReadInputRegister => 0x04
  | .WriteSingleCoil => 0x05
  | .WriteSingleRegister => 0x06
  | .ReadExceptionStatus => 0x07
  | .Diagnostic => 0x08
  | .WriteMultipleRegisters => 0x10
  | .ReportSlaveID => 0x11
  | .ReadFileRecord => 0x14
  | .WriteFileRecord => 0x15
  | .GetComEventCounter => 0x0B
  | .GetComEventLog => 0x0C
  | .WriteMultipleCoils => 0x0F
  | .ReadWriteMultipleRegisters => 0x17
  | .ReadFifoQueue => 0x18
  | .ReadDeviceIdentification => 0x2B

/-- `static_cast<ModbusFunctionCode>(b)` for a byte that is one of the
enumerator values; `none` when `b` is not an enumerator. -/
def byteToFunctionCode? (b : Nat) : Option FunctionCode :=
  if b == 0x01 then some .ReadCoils
  else if b == 0x02 then some .ReadDiscreteInputs
  else if b == 0x03 then some .ReadHoldingRegisters
  else if b == 0x04 then some .ReadInputRegister
  else if b == 0x05 then some .WriteSingleCoil
  else if b == 0x06 then some .WriteSingleRegister
  else if b == 0x07 then some .ReadExceptionStatus
  else if b == 0x08 then some .Diagnostic
  else if b == 0x10 then some .WriteMultipleRegisters
  else if b == 0x11 then some .ReportSlaveID
  else if b == 0x14 then some .ReadFileRecord
  else if b == 0x15 then some .WriteFileRecord
  else if b == 0x0B then some .GetComEventCounter
  else if b == 0x0C then some .GetComEventLog
  else if b == 0x0F then some .WriteMultipleCoils
  else if b == 0x17 then some .ReadWriteMultipleRegisters
  else if b == 0x18 then some .ReadFifoQueue
  else if b == 0x2B then some .ReadDeviceIdentification
  else none

/-- `isValidModbusFunctionCode` from `Modbus.cpp` lines 7-30.  Every
`case` label of the `switch` falls through into the shared
`return false`, and so does `default`; the function therefore returns
`false` for every code.  The embedding lists the labels in source
order. -/
def isValidModbusFunctionCode (code : FunctionCode) : Bool :=
  match code with
  | .ReadDiscreteInputs => false
  | .ReadCoils => false
  | .WriteSingleCoil => false
  | .WriteSingleRegister => false
  | .WriteMultipleCoils => false
  | .ReadInputRegister => false
  | .ReadHoldingRegisters => false
  | .WriteMultipleRegisters => false
  | .ReadWriteMultipleRegisters => false
  | .ReadFifoQueue => false
  | .ReadFileRecord => false
  | .WriteFileRecord => false
  | .ReadExceptionStatus => false
  | .Diagnostic => false
  | .GetComEventCounter => false
  | .GetComEventLog => false
  | .ReportSlaveID => false
  | .ReadDeviceIdentification => false

/-- `byteToModbusFunctionCode` from `Modbus.cpp` lines 41-46: cast the
byte to the enumeration and throw `InvalidFunctionCodeException` unless
`isValidModbusFunctionCode` accepts it.  A byte that is not an
enumerator value reaches the `default` label of the `switch`, which
also returns `false`. -/
def byteToModbusFunctionCode (b : Nat) : Except CppException FunctionCode :=
  match byteToFunctionCode? b with
  | some code =>
      if isValidModbusFunctionCode code then .ok code
      else .error .invalidFunctionCode
  | none => .error .invalidFunctionCode

/-! ## MBAP framing (`ModbusPDU.cpp` lines 5-27 and `ADU.cpp` lines 8-29)

The repository contains two definitions of `Modbus::MBAPToBytes`; the
one in `ADU.cpp` omits the unit-identifier byte.  Both copies of
`Modbus::bytesToMBAP` guard with `bytes.size() < 6` and then read
`bytes[6]`. -/

/-- The `Modbus::MBAP` struct (`ModbusPDU.h` / `ADU.h`). -/
structure MBAP where
  transactionIdentifier : Nat
  protocolIdentifier : Nat
  length : Nat
  unitIdentifier : Nat
  deriving DecidableEq, Repr

/-- Read `bytes[i]`; an index past the end is an out-of-bounds
`std::vector` access, surfaced as the `oobRead` error. -/
def readByte (bytes : List Nat) (i : Nat) : Except CppException Nat :=
  match bytes[i]? with
  | some b => .ok b
  | none => .error .oobRead

/-- `Modbus::bytesToMBAP` (both copies are identical): reject inputs of
fewer than 6 bytes with `std::invalid_argument`, then read bytes 0-6. -/
def bytesToMBAP (bytes : List Nat) : Except CppException MBAP := do
  if bytes.length < 6 then
    .error .invalidArgument
  else
    let b0 ← readByte bytes 0
    let b1 ← readByte bytes 1
    let b2 ← readByte bytes 2
    let b3 ← readByte bytes 3
    let b4 ← readByte bytes 4
    let b5 ← readByte bytes 5
    let b6 ← readByte bytes 6
    .ok { transactionIdentifier := (b0 <<< 8 ||| b1) % 65536
          protocolIdentifier := (b2 <<< 8 ||| b3) % 65536
          length := (b4 <<< 8 ||| b5) % 65536
          unitIdentifier := b6 % 256 }

/-- `Modbus::MBAPToBytes` as defined in `ModbusPDU.cpp` lines 17-27:
seven bytes, unit identifier included. -/
def MBAPToBytes (mbap : MBAP) : List Nat :=
  [ (mbap.transactionIdentifier >>> 8) % 256
  , mbap.transactionIdentifier &&& 0xFF
  , (mbap.protocolIdentifier >>> 8) % 256
  , mbap.protocolIdentifier &&& 0xFF
  , (mbap.length >>> 8) % 256
  , mbap.length &&& 0xFF
  , mbap.unitIdentifier % 256 ]

/-- `Modbus::MBAPToBytes` as defined in `ADU.cpp` lines 20-29: only six
bytes are pushed, the unit identifier is never appended. -/
def MBAPToBytesADU (mbap : MBAP) : List Nat :=
  [ (mbap.transactionIdentifier >>> 8) % 256
  , mbap.transactionIdentifier &&& 0xFF
  , (mbap.protocolIdentifier >>> 8) % 256
  , mbap.protocolIdentifier &&& 0xFF
  , (mbap.length >>> 8) % 256
  , mbap.length &&& 0xFF ]

/-! ## ModbusDataArea.h

The four register kinds (`Coil`, `DiscreteInput`, `HoldingRegister`,
`InputRegister` from `Modbus.h`) all carry an `int` address and a value
(`bool` or `uint16_t`); the embedding uses one parametrised record.
The private templates `registerExists`, `insertRegister` and
`getRegisters` of `Modbus::DataArea` are embedded directly; the public
per-kind wrappers (`getCoils`, `insertCoil`, ...) are declared in
`ModbusDataArea.h` and instantiate these templates on the per-kind
vector. -/

/-- One register: an `int` address and a stored value. -/
structure Reg (α : Type) where
  addr : Int
  val : α
  deriving DecidableEq, Repr

/-- `DataArea::registerExists`: `std::find_if` on the address. -/
def registerExists {α : Type} (registers : List (Reg α)) (address : Int) : Bool :=
  registers.any (fun reg => reg.addr == address)

/-- The comparator passed to `std::ranges::sort` in
`DataArea::insertRegister`: order by address. -/
def addrLE {α : Type} (a b : Reg α) : Prop := a.addr ≤ b.addr

instance {α : Type} : DecidableRel (addrLE (α := α)) := fun a b =>
  inferInstanceAs (Decidable (a.addr ≤ b.addr))

instance {α : Type} : IsTotal (Reg α) addrLE :=
  ⟨fun a b => Int.le_total a.addr b.addr⟩

instance {α : Type} : IsTrans (Reg α) addrLE :=
  ⟨fun _ _ _ hab hbc => le_trans hab hbc⟩

/-- `DataArea::insertRegister` (`ModbusDataArea.h` lines 303-313): throw
`std::invalid_argument` if the address is already present, otherwise
`push_back` and, when more than one element is stored, sort by address.
`std::ranges::sort` delivers a permutation that is sorted by the
comparator; with all addresses distinct that permutation is unique, and
the embedding realises it with `List.insertionSort`. -/
def insertRegister {α : Type} (registers : List (Reg α)) (reg : Reg α) :
    Except CppException (List (Reg α)) :=
  if registerExists registers reg.addr then
    .error .invalidArgument
  else
    let pushed := registers ++ [reg]
    if 1 < pushed.length then .ok (List.insertionSort addrLE pushed)
    else .ok pushed

/-- `DataArea::getRegisters` (`ModbusDataArea.h` lines 349-368).
`std::lower_bound` on the stored (sorted) vector returns the first
position whose address is not `< start`, i.e. the length of the maximal
prefix of addresses `< start`; `std::upper_bound`, searching from that
position, returns the first later position whose address is `> end`.
The function throws `std::out_of_range` only when the lower bound is
the end of the vector or the upper bound is its beginning, and
otherwise returns the slice between the two bounds. -/
def getRegisters {α : Type} (registers : List (Reg α)) (start length : Nat) :
    Except CppException (List (Reg α)) :=
  let e : Int := (start : Int) + (length : Int) - 1
  let s := (registers.takeWhile (fun reg => decide (reg.addr < (start : Int)))).length
  let t := s + ((registers.drop s).takeWhile (fun reg => decide (reg.addr ≤ e))).length
  if s = registers.length ∨ t = 0 then .error .outOfRange
  else .ok ((registers.drop s).take (t - s))

/-- Overwrite the value stored at `address`, leaving other registers
unchanged. -/
def updateRegister {α : Type} (registers : List (Reg α)) (address : Int) (value : α) :
    List (Reg α) :=
  registers.map (fun reg => if reg.addr == address then { reg with val := value } else reg)

/-- Modelled from the spec: the body of `Modbus::DataArea::writeSingletCoil`
is declared in `ModbusDataArea.h` (line 180) but not implemented under
`src`; per §4.2 of the specification and the declaration's doc comment,
`write_coil(address, bool)` throws `std::out_of_range` if the address is
not present and otherwise updates the stored value in place. -/
def writeSingletCoil (coils : List (Reg Bool)) (address : Int) (value : Bool) :
    Except CppException (List (Reg Bool)) :=
  if registerExists coils address then .ok (updateRegister coils address value)
  else .error .outOfRange

/-- Modelled from the spec: the body of `Modbus::DataArea::writeSingleRegister`
is declared in `ModbusDataArea.h` (line 182) but not implemented under
`src`; per §4.2 of the specification, `write_holding(address, u16)`
throws `std::out_of_range` if the address is not present and otherwise
updates the stored value in place. -/
def writeSingleRegister (registers : List (Reg Nat)) (address : Int) (value : Nat) :
    Except CppException (List (Reg Nat)) :=
  if registerExists registers address then .ok (updateRegister registers address value)
  else .error .outOfRange

/-- The four per-kind vectors owned by a `Modbus::DataArea`. -/
structure DataArea where
  coils : List (Reg Bool)
  discreteInputs : List (Reg Bool)
  holdingRegisters : List (Reg Nat)
  inputRegisters : List (Reg Nat)
  deriving DecidableEq, Repr

/-- Strict ascending address order, the invariant of each stored
vector. -/
def sortedByAddr {α : Type} (registers : List (Reg α)) : Prop :=
  registers.Pairwise (fun a b => a.addr < b.addr)

instance {α : Type} (registers : List (Reg α)) : Decidable (sortedByAddr registers) :=
  inferInstanceAs (Decidable (registers.Pairwise _))

/-! ## Bit packing (`ModbusUtilities.h` lines 171-228)

`packBooleanRegistersIntoBytes` fills byte 0 from the first eight
register values (first value into bit 0), then byte 1 from the next
eight, and so on; the byte vector is zero-initialised, so trailing bits
of a final partial byte stay 0.  The embedding builds each byte from
its chunk of up to eight bits. -/

/-- The value of one packed byte: bit `k` is the `k`-th listed bit. -/
def packByte (bits : List Bool) : Nat :=
  bits.foldr (fun b acc => (if b then 1 else 0) + 2 * acc) 0

/-- `Modbus::Utilities::packBooleanRegistersIntoBytes`, applied to the
`read()` values of the registers: the loop places register `i` in bit
`i % 8` of byte `i / 8` (`bytes[byteCounter] |= status << bitCounter`),
so byte `j` of the zero-initialised output collects registers
`8*j .. 8*j+7`. -/
def packBooleanRegistersIntoBytes (bits : List Bool) : List Nat :=
  (List.range (calculateBytesFromBits bits.length)).map
    (fun j => packByte ((bits.drop (8 * j)).take 8))

/-- `Modbus::Utilities::packIntegerRegistersIntoBytes`, applied to the
`read()` values: most significant byte first. -/
def packIntegerRegistersIntoBytes (values : List Nat) : List Nat :=
  values.flatMap (fun v => [(v >>> 8) &&& 0xFF, v &&& 0xFF])

/-! ## ModbusPDU.cpp: the PDU processor -/

/-- `Modbus::buildExceptionResponse` (`ModbusPDU.cpp` lines 228-232). -/
def buildExceptionResponse (functionCode : FunctionCode) (exceptionCode : Nat) : List Nat :=
  [(0x80 + functionCode.toByte) % 256, exceptionCode % 256]

/-- `PDU::getStartingAddressAndQuantityOfRegisters`: big-endian words
from `_data[0..3]`. -/
def getStartingAddressAndQuantityOfRegisters (data : List Nat) : Nat × Nat :=
  (twoBytesToUint16 (data.getD 0 0) (data.getD 1 0),
   twoBytesToUint16 (data.getD 2 0) (data.getD 3 0))

/-- `PDU::buildResponseForBooleanRegisters` (`ModbusPDU.h` lines
209-224): the byte count is computed from the number of registers
actually retrieved, the response vector has that many data bytes, and
the cast of the count to `std::byte` truncates modulo 256. -/
def buildResponseForBooleanRegisters (functionCode : FunctionCode)
    (booleanRegisters : List (Reg Bool)) : List Nat :=
  let byteCount := calculateBytesFromBits booleanRegisters.length
  functionCode.toByte % 256 :: byteCount % 256 ::
    packBooleanRegistersIntoBytes (booleanRegisters.map (·.val))

/-- `PDU::buildResponseForIntegerRegisters` (`ModbusPDU.h` lines
242-255): the byte count is `2 * quantityOfRegisters` (the requested
quantity, not the retrieved count); the zero-initialised response
vector is padded with zeros when fewer bytes were packed. -/
def buildResponseForIntegerRegisters (functionCode : FunctionCode)
    (integerRegisters : List (Reg Nat)) (quantityOfRegisters : Nat) : List Nat :=
  let byteCount := quantityOfRegisters * 2
  let packed := packIntegerRegistersIntoBytes (integerRegisters.map (·.val))
  functionCode.toByte % 256 :: byteCount % 256 ::
    (packed.take byteCount ++ List.replicate (byteCount - packed.length) 0)

/-- `PDU::getReadCoilsResponse` (`ModbusPDU.cpp` lines 77-90): range
read, `std::out_of_range` mapped to exception 0x02. -/
def getReadCoilsResponse (data : List Nat) (da : DataArea) : List Nat :=
  let (startingAddress, quantityOfCoils) := getStartingAddressAndQuantityOfRegisters data
  match getRegisters da.coils startingAddress quantityOfCoils with
  | .ok coils => buildResponseForBooleanRegisters .ReadCoils coils
  | .error _ => buildExceptionResponse .ReadCoils 0x02

/-- `PDU::getReadDiscreteInputsResponse` (`ModbusPDU.cpp` lines 92-104). -/
def getReadDiscreteInputsResponse (data : List Nat) (da : DataArea) : List Nat :=
  let (startingAddress, quantityOfRegisters) := getStartingAddressAndQuantityOfRegisters data
  match getRegisters da.discreteInputs startingAddress quantityOfRegisters with
  | .ok inputs => buildResponseForBooleanRegisters .ReadDiscreteInputs inputs
  | .error _ => buildExceptionResponse .ReadDiscreteInputs 0x02

/-- `PDU::getReadHoldingRegistersResponse` (`ModbusPDU.cpp` lines 106-119). -/
def getReadHoldingRegistersResponse (data : List Nat) (da : DataArea) : List Nat :=
  let (startingAddress, quantityOfRegisters) := getStartingAddressAndQuantityOfRegisters data
  match getRegisters da.holdingRegisters startingAddress quantityOfRegisters with
  | .ok regs => buildResponseForIntegerRegisters .ReadHoldingRegisters regs quantityOfRegisters
  | .error _ => buildExceptionResponse .ReadHoldingRegisters 0x02

/-- `PDU::getReadInputRegistersResponse` (`ModbusPDU.cpp` lines 121-133). -/
def getReadInputRegistersResponse (data : List Nat) (da : DataArea) : List Nat :=
  let (startingAddress, quantityOfRegisters) := getStartingAddressAndQuantityOfRegisters data
  match getRegisters da.inputRegisters startingAddress quantityOfRegisters with
  | .ok regs => buildResponseForIntegerRegisters .ReadInputRegister regs quantityOfRegisters
  | .error _ => buildExceptionResponse .ReadInputRegister 0x02

/-- `PDU::getWriteSingleCoilResponse` (`ModbusPDU.cpp` lines 135-152):
the value must be exactly 0xFF00 or 0x0000, otherwise exception 0x03;
a missing address yields exception 0x02; on success the response is
the function-code byte followed by `_data[0..3]`. -/
def getWriteSingleCoilResponse (data : List Nat) (da : DataArea) : List Nat × DataArea :=
  let (address, value) := getStartingAddressAndQuantityOfRegisters data
  if value != 0xFF00 && value != 0x0000 then
    (buildExceptionResponse .WriteSingleCoil 0x03, da)
  else
    let coilValue := value == 0xFF00
    match writeSingletCoil da.coils address coilValue with
    | .ok coils =>
        (FunctionCode.WriteSingleCoil.toByte ::
          [data.getD 0 0, data.getD 1 0, data.getD 2 0, data.getD 3 0],
         { da with coils := coils })
    | .error _ => (buildExceptionResponse .WriteSingleCoil 0x02, da)

/-- `PDU::getWriteSingleRegisterResponse` (`ModbusPDU.cpp` lines 154-163). -/
def getWriteSingleRegisterResponse (data : List Nat) (da : DataArea) : List Nat × DataArea :=
  let (address, value) := getStartingAddressAndQuantityOfRegisters data
  match writeSingleRegister da.holdingRegisters address value with
  | .ok regs =>
      (FunctionCode.WriteSingleRegister.toByte ::
        [data.getD 0 0, data.getD 1 0, data.getD 2 0, data.getD 3 0],
       { da with holdingRegisters := regs })
  | .error _ => (buildExceptionResponse .WriteSingleRegister 0x02, da)

/-- The write loop of `getWriteMultipleCoilsResponse`: for
`i = 0 .. quantity-1`, `writeSingletCoil(startingAddress + i,
unpackedBooleans[i])`.  An `std::out_of_range` thrown by a write is not
caught in the source and propagates out of `buildResponse`. -/
def writeCoilsLoop (coils : List (Reg Bool)) (startingAddress : Nat) (quantity : Nat)
    (bits : List Bool) : Except CppException (List (Reg Bool)) :=
  (List.range quantity).foldlM
    (fun cs (i : Nat) =>
      writeSingletCoil cs ((startingAddress : Int) + (i : Int)) (bits.getD i false))
    coils

/-- The write loop of `getWriteMultipleRegistersResponse`: for
`i = 0 .. quantity-1`, write the big-endian word at `_data[5+2i..6+2i]`. -/
def writeRegistersLoop (registers : List (Reg Nat)) (startingAddress : Nat) (quantity : Nat)
    (data : List Nat) : Except CppException (List (Reg Nat)) :=
  (List.range quantity).foldlM
    (fun rs (i : Nat) => writeSingleRegister rs ((startingAddress : Int) + (i : Int))
      (twoBytesToUint16 (data.getD (5 + 2 * i) 0) (data.getD (6 + 2 * i) 0)))
    registers

/-- `PDU::getWriteMultipleCoilsResponse` (`ModbusPDU.cpp` lines
165-200).  `quantityOfCoils` is a `uint16_t`, so the source's
`quantityOfCoils < 0` test is never true and is dropped here; the upper
bound compared against is `MAX_COILS = 2000`.  After the value and
range checks, `byteCount` bytes are unpacked bit by bit
(least-significant bit first) and the first `quantityOfCoils` booleans
are written in ascending address order. -/
def getWriteMultipleCoilsResponse (data : List Nat) (da : DataArea) :
    Except CppException (List Nat × DataArea) :=
  let (startingAddress, quantityOfCoils) := getStartingAddressAndQuantityOfRegisters data
  let byteCountFromRawData := data.getD 4 0
  let requiredBytesForNumberOfCoils := calculateBytesFromBits quantityOfCoils
  if quantityOfCoils > 2000 ∨ byteCountFromRawData ≠ requiredBytesForNumberOfCoils ∨
      requiredBytesForNumberOfCoils > data.length - 5 then
    .ok (buildExceptionResponse .WriteMultipleCoils 0x03, da)
  else
    match getRegisters da.coils startingAddress quantityOfCoils with
    | .error _ => .ok (buildExceptionResponse .WriteMultipleCoils 0x02, da)
    | .ok _ => do
        let unpackedBooleans :=
          ((data.drop 5).take byteCountFromRawData).flatMap byteToBooleans
        let coils ← writeCoilsLoop da.coils startingAddress quantityOfCoils unpackedBooleans
        .ok (FunctionCode.WriteMultipleCoils.toByte ::
              [data.getD 0 0, data.getD 1 0, data.getD 2 0, data.getD 3 0],
             { da with coils := coils })

/-- `PDU::getWriteMultipleRegistersResponse` (`ModbusPDU.cpp` lines
202-226), with `MAX_HOLDING_REGISTERS = 123`. -/
def getWriteMultipleRegistersResponse (data : List Nat) (da : DataArea) :
    Except CppException (List Nat × DataArea) :=
  let (startingAddress, quantityOfRegisters) := getStartingAddressAndQuantityOfRegisters data
  let byteCount := data.getD 4 0
  if quantityOfRegisters > 123 ∨ byteCount ≠ quantityOfRegisters * 2 ∨
      quantityOfRegisters * 2 > data.length - 5 then
    .ok (buildExceptionResponse .WriteMultipleRegisters 0x03, da)
  else
    match getRegisters da.holdingRegisters startingAddress quantityOfRegisters with
    | .error _ => .ok (buildExceptionResponse .WriteMultipleRegisters 0x02, da)
    | .ok _ => do
        let regs ← writeRegistersLoop da.holdingRegisters startingAddress quantityOfRegisters data
        .ok (FunctionCode.WriteMultipleRegisters.toByte ::
              [data.getD 0 0, data.getD 1 0, data.getD 2 0, data.getD 3 0],
             { da with holdingRegisters := regs })

/-- `PDU::buildResponse` (`ModbusPDU.cpp` lines 46-68): dispatch on the
function code; any code outside the eight handled ones falls to the
`default` branch, an exception response with code 0x01. -/
def buildResponse (functionCode : FunctionCode) (data : List Nat) (da : DataArea) :
    Except CppException (List Nat × DataArea) :=
  match functionCode with
  | .ReadCoils => .ok (getReadCoilsResponse data da, da)
  | .ReadDiscreteInputs => .ok (getReadDiscreteInputsResponse data da, da)
  | .ReadHoldingRegisters => .ok (getReadHoldingRegistersResponse data da, da)
  | .ReadInputRegister => .ok (getReadInputRegistersResponse data da, da)
  | .WriteSingleCoil => .ok (getWriteSingleCoilResponse data da)
  | .WriteSingleRegister => .ok (getWriteSingleRegisterResponse data da)
  | .WriteMultipleCoils => getWriteMultipleCoilsResponse data da
  | .WriteMultipleRegisters => getWriteMultipleRegistersResponse data da
  | fc => .ok (buildExceptionResponse fc 0x01, da)

/-- The PDU processor applied to a raw request: the `PDU` constructor
(`ModbusPDU.cpp` lines 30-33) converts `rawData[0]` with
`byteToModbusFunctionCode` — which throws on failure — and stores
`rawData[1..]` as `_data`; `buildResponse` then produces the response
bytes. -/
def processPDU (rawData : List Nat) (da : DataArea) :
    Except CppException (List Nat × DataArea) := do
  let functionCode ← byteToModbusFunctionCode (rawData.getD 0 0)
  buildResponse functionCode rawData.tail da

/-! ## Arithmetic helper lemmas -/

theorem or_byte_eq_add (m l : Nat) (h : l < 256) : (m <<< 8) ||| l = m * 256 + l := by
  apply Nat.eq_of_testBit_eq
  intro i
  rw [Nat.testBit_lor, Nat.testBit_shiftLeft,
    show m * 256 + l = 2 ^ 8 * m + l by ring,
    Nat.testBit_mul_pow_two_add m (show l < 2 ^ 8 by simpa using h) i]
  rcases Nat.lt_or_ge i 8 with hi | hi
  · simp [Nat.not_le.mpr hi, hi]
  · rw [if_neg (Nat.not_lt.mpr hi),
      Nat.testBit_eq_false_of_lt
        (lt_of_lt_of_le (show l < 2 ^ 8 by simpa using h) (Nat.pow_le_pow_right (by norm_num) hi))]
    simp [ge_iff_le, hi]

theorem twoBytesToUint16_eq (msb lsb : Nat) (hm : msb < 256) (hl : lsb < 256) :
    twoBytesToUint16 msb lsb = msb * 256 + lsb := by
  rw [twoBytesToUint16, or_byte_eq_add msb lsb hl, Nat.mod_eq_of_lt (by omega)]

theorem uint16ToTwoBytes_eq (value : Nat) :
    uint16ToTwoBytes value = ((value / 256) % 256, value % 256) := by
  rw [uint16ToTwoBytes, Nat.shiftRight_eq_div_pow,
    show (0xFF : Nat) = 2 ^ 8 - 1 by norm_num, Nat.and_pow_two_sub_one_eq_mod]

/-! ## takeWhile / dropWhile helper lemmas -/

theorem drop_length_takeWhile {α : Type} (p : α → Bool) (l : List α) :
    l.drop (l.takeWhile p).length = l.dropWhile p := by
  induction l with
  | nil => rfl
  | cons x xs ih =>
      by_cases hx : p x
      · simp [List.takeWhile_cons, List.dropWhile_cons, hx, ih]
      · simp [List.takeWhile_cons, List.dropWhile_cons, hx]

theorem take_length_takeWhile {α : Type} (p : α → Bool) (l : List α) :
    l.take (l.takeWhile p).length = l.takeWhile p := by
  induction l with
  | nil => rfl
  | cons x xs ih =>
      by_cases hx : p x
      · simp [List.takeWhile_cons, hx, ih]
      · simp [List.takeWhile_cons, hx]

theorem takeWhile_length_eq_iff {α : Type} (p : α → Bool) (l : List α) :
    (l.takeWhile p).length = l.length ↔ ∀ x ∈ l, p x := by
  induction l with
  | nil => simp
  | cons x xs ih =>
      by_cases hx : p x
      · simp [List.takeWhile_cons, hx, ih]
      · rw [List.takeWhile_cons, if_neg (by simpa using hx)]
        simp only [List.length_nil, List.length_cons]
        constructor
        · intro h
          omega
        · intro h
          exact absurd (h x (List.mem_cons_self x xs)) (by simpa using hx)

theorem takeWhile_eq_self_of_forall {α : Type} {p : α → Bool} {l : List α}
    (h : ∀ x ∈ l, p x) : l.takeWhile p = l := by
  induction l with
  | nil => rfl
  | cons x xs ih =>
      rw [List.takeWhile_cons, if_pos (h x (by simp)), ih (fun y hy => h y (by simp [hy]))]

/-! ## Characterisation of `DataArea::getRegisters` on sorted stores -/

theorem takeWhile_le_eq_filter {α : Type} (e : Int) {l : List (Reg α)}
    (hs : sortedByAddr l) :
    l.takeWhile (fun r => decide (r.addr ≤ e)) = l.filter (fun r => decide (r.addr ≤ e)) := by
  induction l with
  | nil => rfl
  | cons x xs ih =>
      rcases List.pairwise_cons.mp hs with ⟨hx, htail⟩
      by_cases hxe : x.addr ≤ e
      · simp only [List.takeWhile_cons, List.filter_cons, decide_eq_true_eq, hxe,
          if_pos, decide_True]
        rw [ih htail]
      · simp only [List.takeWhile_cons, List.filter_cons, hxe, decide_False,
          Bool.false_eq_true, if_false]
        rw [eq_comm, List.filter_eq_nil_iff]
        intro y hy
        simp only [decide_eq_true_eq]
        have := hx y hy
        omega

theorem dropWhile_takeWhile_eq_filter {α : Type} (a e : Int) {xs : List (Reg α)}
    (hs : sortedByAddr xs) :
    (xs.dropWhile (fun r => decide (r.addr < a))).takeWhile (fun r => decide (r.addr ≤ e)) =
      xs.filter (fun r => decide (a ≤ r.addr) && decide (r.addr ≤ e)) := by
  induction xs with
  | nil => rfl
  | cons x l ih =>
      rcases List.pairwise_cons.mp hs with ⟨hx, htail⟩
      by_cases hxa : x.addr < a
      · simp only [List.dropWhile_cons, hxa, decide_True, if_true, List.filter_cons,
          show ¬ a ≤ x.addr by omega, decide_False, Bool.false_and, Bool.false_eq_true, if_false]
        exact ih htail
      · simp only [List.dropWhile_cons, hxa, decide_False, Bool.false_eq_true, if_false]
        by_cases hxe : x.addr ≤ e
        · simp only [List.takeWhile_cons, List.filter_cons, hxe, decide_True,
            show a ≤ x.addr by omega, Bool.and_self, if_true, if_pos]
          rw [takeWhile_le_eq_filter e htail]
          refine congrArg (List.cons x) (List.filter_congr ?_)
          intro y hy
          have hxy := hx y hy
          simp [show a ≤ y.addr by omega]
        · simp only [List.takeWhile_cons, List.filter_cons, hxe, decide_False,
            Bool.and_false, Bool.false_eq_true, if_false]
          rw [eq_comm, List.filter_eq_nil_iff]
          intro y hy
          have := hx y hy
          simp only [Bool.and_eq_true, decide_eq_true_eq, not_and]
          intro _
          omega

theorem getRegisters_error_iff {α : Type} (xs : List (Reg α)) (start len : Nat)
    (hs : sortedByAddr xs) :
    getRegisters xs start len = .error .outOfRange ↔
      (∀ r ∈ xs, r.addr < (start : Int)) ∨
        (∀ r ∈ xs, (start : Int) + (len : Int) - 1 < r.addr) := by
  simp only [getRegisters]
  constructor
  · intro h
    by_cases hC :
        (xs.takeWhile (fun reg => decide (reg.addr < (start : Int)))).length = xs.length ∨
          (xs.takeWhile (fun reg => decide (reg.addr < (start : Int)))).length +
            ((xs.drop
                (xs.takeWhile (fun reg => decide (reg.addr < (start : Int)))).length).takeWhile
              (fun reg => decide (reg.addr ≤ (start : Int) + (len : Int) - 1))).length = 0
    · rcases hC with hC | hC
      · left
        intro r hr
        have := (takeWhile_length_eq_iff (fun reg => decide (reg.addr < (start : Int))) xs).mp hC
        simpa using this r hr
      · have hs0 : (xs.takeWhile (fun reg => decide (reg.addr < (start : Int)))).length = 0 := by
          omega
        cases xs with
        | nil =>
            left
            intro r hr
            simp at hr
        | cons x l =>
            right
            rw [hs0] at hC
            simp only [List.drop_zero, Nat.zero_add] at hC
            have hq : ¬ (x.addr ≤ (start : Int) + (len : Int) - 1) := by
              intro hq
              rw [List.takeWhile_cons, if_pos (by simpa using hq)] at hC
              simp at hC
            intro r hr
            rcases List.mem_cons.mp hr with rfl | hr
            · omega
            · have := (List.pairwise_cons.mp hs).1 r hr
              omega
    · rw [if_neg hC] at h
      simp at h
  · intro h
    rcases h with h | h
    · rw [if_pos (Or.inl ((takeWhile_length_eq_iff _ xs).mpr
        (fun x hx => by simpa using h x hx)))]
    · cases xs with
      | nil => rw [if_pos (Or.inl (by simp))]
      | cons x l =>
          have hx := h x (List.mem_cons_self x l)
          have hs0 : ((x :: l).takeWhile (fun reg => decide (reg.addr < (start : Int)))).length
              = 0 := by
            rw [List.takeWhile_cons, if_neg (by simp only [decide_eq_true_eq]; omega)]
            rfl
          rw [if_pos (Or.inr ?_)]
          rw [hs0]
          simp only [List.drop_zero, Nat.zero_add]
          rw [List.takeWhile_cons, if_neg (by simp only [decide_eq_true_eq]; omega)]
          rfl

theorem getRegisters_ok_eq {α : Type} {xs : List (Reg α)} {start len : Nat}
    {ys : List (Reg α)} (hs : sortedByAddr xs)
    (h : getRegisters xs start len = .ok ys) :
    ys = xs.filter (fun r => decide ((start : Int) ≤ r.addr) &&
      decide (r.addr ≤ (start : Int) + (len : Int) - 1)) := by
  simp only [getRegisters] at h
  split at h
  · simp at h
  · have hys := (Except.ok.injEq _ _).mp h
    rw [← hys]
    rw [Nat.add_sub_cancel_left, take_length_takeWhile, drop_length_takeWhile]
    exact dropWhile_takeWhile_eq_filter (start : Int) ((start : Int) + (len : Int) - 1) hs

/-! ## Bit-packing lemmas -/

theorem testBit_packByte (bits : List Bool) (k : Nat) :
    Nat.testBit (packByte bits) k = bits.getD k false := by
  induction bits generalizing k with
  | nil => simp [packByte]
  | cons b bs ih =>
      have hstep : packByte (b :: bs) = (if b then 1 else 0) + 2 * packByte bs := rfl
      cases k with
      | zero =>
          rw [hstep, Nat.testBit_zero]
          cases b <;> simp <;> omega
      | succ k =>
          rw [hstep, Nat.testBit_succ,
            show ((if b then 1 else 0) + 2 * packByte bs) / 2 = packByte bs by
              cases b <;> simp <;> omega]
          simpa using ih k

theorem length_packBooleanRegistersIntoBytes (bits : List Bool) :
    (packBooleanRegistersIntoBytes bits).length = calculateBytesFromBits bits.length := by
  rw [packBooleanRegistersIntoBytes, List.length_map, List.length_range]

theorem testBit_packBooleanRegistersIntoBytes (bits : List Bool) (i : Nat)
    (hi : i < 8 * (packBooleanRegistersIntoBytes bits).length) :
    Nat.testBit ((packBooleanRegistersIntoBytes bits).getD (i / 8) 0) (i % 8) =
      bits.getD i false := by
  rw [length_packBooleanRegistersIntoBytes] at hi
  have hj : i / 8 < calculateBytesFromBits bits.length := by omega
  have hbyte : (packBooleanRegistersIntoBytes bits).getD (i / 8) 0 =
      packByte ((bits.drop (8 * (i / 8))).take 8) := by
    rw [packBooleanRegistersIntoBytes, List.getD_eq_getElem?_getD, List.getElem?_map,
      List.getElem?_range hj]
    rfl
  rw [hbyte, testBit_packByte]
  rw [List.getD_eq_getElem?_getD, List.getD_eq_getElem?_getD, List.getElem?_take,
    if_pos (Nat.mod_lt i (by norm_num)), List.getElem?_drop,
    show 8 * (i / 8) + i % 8 = i by omega]

/-! ## Counting registers in a fully populated range -/

theorem length_filter_of_full_range {α : Type} (xs : List (Reg α)) (start qty : Nat)
    (hs : sortedByAddr xs)
    (hall : ∀ a : Int, (start : Int) ≤ a → a ≤ (start : Int) + (qty : Int) - 1 →
      ∃ r ∈ xs, r.addr = a) :
    (xs.filter (fun r => decide ((start : Int) ≤ r.addr) &&
      decide (r.addr ≤ (start : Int) + (qty : Int) - 1))).length = qty := by
  set F := xs.filter (fun r => decide ((start : Int) ≤ r.addr) &&
    decide (r.addr ≤ (start : Int) + (qty : Int) - 1)) with hF
  set R := (List.range qty).map (fun i : Nat => (start : Int) + (i : Int)) with hR
  have hFnodup : (F.map (fun r => r.addr)).Nodup := by
    have hpF : F.Pairwise (fun a b => a.addr < b.addr) := List.Pairwise.filter _ hs
    rw [List.Nodup, List.pairwise_map]
    exact hpF.imp (fun hab => by omega)
  have hRnodup : R.Nodup := by
    refine List.Nodup.map ?_ (List.nodup_range qty)
    intro i j hij
    have := add_left_cancel hij
    exact_mod_cast this
  have hFR : F.map (fun r => r.addr) ⊆ R := by
    intro a ha
    rcases List.mem_map.mp ha with ⟨r, hrF, rfl⟩
    have := List.of_mem_filter hrF
    simp only [Bool.and_eq_true, decide_eq_true_eq] at this
    refine List.mem_map.mpr ⟨(r.addr - (start : Int)).toNat, List.mem_range.mpr (by omega), ?_⟩
    omega
  have hRF : R ⊆ F.map (fun r => r.addr) := by
    intro a ha
    rcases List.mem_map.mp ha with ⟨i, hi, rfl⟩
    have hi' := List.mem_range.mp hi
    rcases hall ((start : Int) + (i : Int)) (by omega) (by omega) with ⟨r, hr, hra⟩
    refine List.mem_map.mpr ⟨r, List.mem_filter.mpr ⟨hr, ?_⟩, hra⟩
    simp only [Bool.and_eq_true, decide_eq_true_eq]
    omega
  have h1 := (List.subperm_of_subset hFnodup hFR).length_le
  have h2 := (List.subperm_of_subset hRnodup hRF).length_le
  have hFl : (F.map (fun r => r.addr)).length = F.length := List.length_map F _
  have hRl : R.length = qty := by
    rw [hR, List.length_map, List.length_range]
  omega

/-! ## The write loops -/

theorem Except_ok_bind {ε α β : Type} (a : α) (f : α → Except ε β) :
    (Except.ok a >>= f) = f a := rfl

theorem registerExists_map_preserve {α : Type} (registers : List (Reg α))
    (f : Reg α → Reg α) (hf : ∀ r, (f r).addr = r.addr) (x : Int) :
    registerExists (registers.map f) x = registerExists registers x := by
  induction registers with
  | nil => rfl
  | cons r rs ih =>
      simp only [registerExists, List.map_cons, List.any_cons] at *
      rw [hf r, ih]

theorem writeCoilsLoop_ok {cs : List (Reg Bool)} (start qty : Nat) (bits : List Bool)
    (hall : ∀ i : Nat, i < qty → registerExists cs ((start : Int) + (i : Int)) = true) :
    writeCoilsLoop cs start qty bits =
      .ok (cs.map (fun r =>
        if (start : Int) ≤ r.addr ∧ r.addr < (start : Int) + (qty : Int) then
          { r with val := bits.getD (r.addr - (start : Int)).toNat false }
        else r)) := by
  induction qty with
  | zero =>
      rw [writeCoilsLoop, List.range_zero, List.foldlM_nil]
      have : cs.map (fun r =>
          if (start : Int) ≤ r.addr ∧ r.addr < (start : Int) + ((0 : Nat) : Int) then
            { r with val := bits.getD (r.addr - (start : Int)).toNat false }
          else r) = cs.map id := by
        refine List.map_congr_left (fun r _ => ?_)
        rw [if_neg (by omega)]
        rfl
      rw [this, List.map_id]
      rfl
  | succ q ih =>
      have hloop := ih (fun i hi => hall i (by omega))
      rw [writeCoilsLoop] at hloop ⊢
      rw [List.range_succ, List.foldlM_append, hloop]
      simp only [Except_ok_bind, List.foldlM_cons, List.foldlM_nil, bind_pure]
      have hex : registerExists (cs.map (fun r =>
          if (start : Int) ≤ r.addr ∧ r.addr < (start : Int) + (q : Int) then
            { r with val := bits.getD (r.addr - (start : Int)).toNat false }
          else r)) ((start : Int) + (q : Int)) = true := by
        rw [registerExists_map_preserve cs _ (fun r => by split <;> rfl)]
        exact hall q (by omega)
      rw [writeSingletCoil, if_pos hex]
      refine congrArg Except.ok ?_
      rw [updateRegister, List.map_map]
      refine List.map_congr_left (fun r _ => ?_)
      simp only [Function.comp_apply]
      by_cases hq : r.addr = (start : Int) + (q : Int)
      · have hc : ¬ ((start : Int) ≤ r.addr ∧ r.addr < (start : Int) + (q : Int)) := by omega
        rw [if_neg hc]
        rw [show (r.addr == (start : Int) + (q : Int)) = true by simpa using hq]
        simp only [if_true]
        have hc2 : (start : Int) ≤ r.addr ∧ r.addr < (start : Int) + ((q + 1 : Nat) : Int) := by
          push_cast
          omega
        rw [if_pos hc2]
        have htn : (r.addr - (start : Int)).toNat = q := by omega
        rw [htn]
      · by_cases hin : (start : Int) ≤ r.addr ∧ r.addr < (start : Int) + (q : Int)
        · rw [if_pos hin]
          rw [show (r.addr == (start : Int) + (q : Int)) = false by simpa using hq]
          simp only [Bool.false_eq_true, if_false]
          have hc2 : (start : Int) ≤ r.addr ∧
              r.addr < (start : Int) + ((q + 1 : Nat) : Int) := by
            push_cast
            omega
          rw [if_pos hc2]
        · rw [if_neg hin]
          rw [show (r.addr == (start : Int) + (q : Int)) = false by simpa using hq]
          simp only [Bool.false_eq_true, if_false]
          have hc2 : ¬ ((start : Int) ≤ r.addr ∧
              r.addr < (start : Int) + ((q + 1 : Nat) : Int)) := by
            push_cast
            omega
          rw [if_neg hc2]

/-! ## Insertion lemmas -/

theorem nodupAddr_of_sorted {α : Type} {l : List (Reg α)} (hs : sortedByAddr l) :
    (l.map (fun r => r.addr)).Nodup := by
  rw [List.Nodup, List.pairwise_map]
  exact hs.imp (fun hab => by omega)

theorem sorted_of_le_nodup {α : Type} {l : List (Reg α)}
    (hle : l.Pairwise addrLE) (hnd : (l.map (fun r => r.addr)).Nodup) :
    sortedByAddr l := by
  rw [List.Nodup, List.pairwise_map] at hnd
  exact (hle.and hnd).imp (fun hab => by
    rcases hab with ⟨h1, h2⟩
    rcases lt_or_eq_of_le h1 with h | h
    · exact h
    · exact absurd h h2)

theorem insertRegister_error_of_exists {α : Type} (registers : List (Reg α)) (reg : Reg α)
    (h : registerExists registers reg.addr = true) :
    insertRegister registers reg = .error .invalidArgument := by
  rw [insertRegister, if_pos h]

theorem sortedByAddr_insertRegister {α : Type} {registers out : List (Reg α)} {reg : Reg α}
    (hs : sortedByAddr registers) (h : insertRegister registers reg = .ok out) :
    sortedByAddr out := by
  simp only [insertRegister] at h
  by_cases hex : registerExists registers reg.addr
  · rw [if_pos hex] at h
    exact Except.noConfusion h
  · rw [if_neg hex] at h
    have hnd : ((registers ++ [reg]).map (fun r => r.addr)).Nodup := by
      rw [List.map_append, List.nodup_append]
      refine ⟨nodupAddr_of_sorted hs, List.nodup_singleton _, ?_⟩
      intro a ha hb
      rcases List.mem_map.mp ha with ⟨r, hr, rfl⟩
      have : ¬ (r.addr == reg.addr) = true := by
        intro hcontra
        exact hex (List.any_eq_true.mpr ⟨r, hr, hcontra⟩)
      exact this (by simpa using hb)
    by_cases hlen : 1 < (registers ++ [reg]).length
    · rw [if_pos hlen] at h
      have hout := (Except.ok.injEq _ _).mp h
      rw [← hout]
      refine sorted_of_le_nodup (List.sorted_insertionSort addrLE (registers ++ [reg])) ?_
      have hperm := (List.perm_insertionSort addrLE (registers ++ [reg])).map
        (fun r => r.addr)
      exact (hperm.nodup_iff).mpr hnd
    · rw [if_neg hlen] at h
      have hout := (Except.ok.injEq _ _).mp h
      rw [← hout]
      rcases registers with _ | ⟨x, l⟩
      · exact List.pairwise_singleton _ _
      · exfalso
        simp at hlen

/-- A sequence of `insert_<kind>` calls in which each failed insertion
leaves the stored vector untouched (the thrown `std::invalid_argument`
propagates to the caller before `push_back`). -/
def insertAllLoose {α : Type} (rs : List (Reg α)) : List (Reg α) :=
  rs.foldl (fun acc r =>
    match insertRegister acc r with
    | .ok l => l
    | .error _ => acc) []

theorem sortedByAddr_foldl_insert {α : Type} (rs : List (Reg α)) :
    ∀ acc : List (Reg α), sortedByAddr acc →
      sortedByAddr (rs.foldl (fun acc r =>
        match insertRegister acc r with
        | .ok l => l
        | .error _ => acc) acc) := by
  induction rs with
  | nil => exact fun acc h => h
  | cons r rest ih =>
      intro acc hacc
      rw [List.foldl_cons]
      rcases hstep : insertRegister acc r with e | l
      · simpa [hstep] using ih acc hacc
      · simpa [hstep] using ih l (sortedByAddr_insertRegister hacc hstep)

/-! ## Concrete data-area fixtures (as built by the repository's tests) -/

/-- Ten coils at addresses 0-9, all `true` (the `pduTests.cpp` fixture
`modbusDataAreaWithTenRegistersEach`). -/
def coilsTen : List (Reg Bool) := (List.range 10).map (fun i => ⟨(i : Int), true⟩)

/-- A data area with ten coils and ten discrete inputs at addresses 0-9. -/
def daTen : DataArea := ⟨coilsTen, coilsTen, [], []⟩

/-- Coils at addresses 0 and 9 only: addresses 1-8 are absent. -/
def coilsGap : List (Reg Bool) := [⟨0, true⟩, ⟨9, true⟩]

/-- A data area whose coil store has an interior gap. -/
def daGap : DataArea := ⟨coilsGap, [], [], []⟩

/-- A data area whose discrete-input store has an interior gap. -/
def daGapDI : DataArea := ⟨[], coilsGap, [], []⟩

/-! ## The claims -/

/-- C1: the spec says a request PDU whose first byte is not one of the
eight handled function codes is answered (without throwing) by the
two-byte exception response `[fc | 0x80, 0x01]`, e.g. `2C 00 01 00 0A`
→ `AC 01`.  The code disagrees: `isValidModbusFunctionCode` falls
through every `case` of its `switch` and returns `false` for every
code, so `byteToModbusFunctionCode` — and hence the `PDU` constructor —
throws `InvalidFunctionCodeException` for every first byte, and no
response is produced.  This theorem records what the code does at the
claim's own example input, and that the validity predicate rejects
every function code. -/
theorem claim1_unknown_function_code_throws :
    (∀ da : DataArea,
      processPDU [0x2C, 0x00, 0x01, 0x00, 0x0A] da = .error .invalidFunctionCode) ∧
    (∀ b : Nat, byteToModbusFunctionCode b = .error .invalidFunctionCode) ∧
    (∀ code : FunctionCode, isValidModbusFunctionCode code = false) := by
  have hvalid : ∀ code : FunctionCode, isValidModbusFunctionCode code = false := by
    intro code
    cases code <;> rfl
  refine ⟨fun da => rfl, fun b => ?_, hvalid⟩
  rw [byteToModbusFunctionCode]
  cases hc : byteToFunctionCode? b with
  | none => rfl
  | some code => simp [hvalid]

/-- C3: the spec says `getRegisters` fails when `length == 0`, when
`start+length-1` overflows 16 bits, when the per-request limit is
exceeded, or when any address in the closed interval is missing, and
succeeds only when every address is present.  The code performs none of
those checks: on addresses 0 and 9 a query for the full range 0..9
succeeds (returning just the two stored entries) although 1..8 are
missing, and a zero-length query can succeed with an empty result. -/
theorem claim3_counterexample :
    getRegisters coilsGap 0 10 = .ok coilsGap ∧
    (¬ ∃ r ∈ coilsGap, r.addr = 5) ∧
    getRegisters [(⟨0, true⟩ : Reg Bool), ⟨1, true⟩] 1 0 = .ok [] ∧
    getRegisters coilsGap 0 3000 = .ok coilsGap := by
  exact ⟨rfl, by decide, rfl, rfl⟩

/-- C3 (amended): on a store sorted strictly by address, `getRegisters`
fails with out-of-range exactly when every stored address is below
`start` or every stored address is above `start+length-1`; in every
other case it returns the stored entries whose addresses lie in the
closed interval — which may be fewer than `length` when interior
addresses are missing.  No zero-length, 16-bit-overflow or
per-request-limit check is performed. -/
theorem claim3_getRegisters_characterisation :
    ∀ (xs : List (Reg Bool)) (start len : Nat), sortedByAddr xs →
      (getRegisters xs start len = .error .outOfRange ↔
        (∀ r ∈ xs, r.addr < (start : Int)) ∨
          (∀ r ∈ xs, (start : Int) + (len : Int) - 1 < r.addr)) ∧
      (∀ ys, getRegisters xs start len = .ok ys →
        ys = xs.filter (fun r => decide ((start : Int) ≤ r.addr) &&
          decide (r.addr ≤ (start : Int) + (len : Int) - 1))) :=
  fun xs start len hs =>
    ⟨getRegisters_error_iff xs start len hs, fun _ h => getRegisters_ok_eq hs h⟩

/-- Witness for C3's amended theorem at a concrete store and range. -/
theorem claim3_witness :
    getRegisters coilsGap 20 5 = .error .outOfRange ∧
    getRegisters coilsGap 0 10 =
      .ok (coilsGap.filter (fun r => decide ((((0 : Nat)) : Int) ≤ r.addr) &&
        decide (r.addr ≤ (((0 : Nat)) : Int) + (((10 : Nat)) : Int) - 1))) := by
  constructor
  · exact (claim3_getRegisters_characterisation coilsGap 20 5 (by decide)).1.mpr
      (Or.inl (by decide))
  · have h := (claim3_getRegisters_characterisation coilsGap 0 10 (by decide)).2 coilsGap rfl
    rw [← h]
    rfl

/-- C9: inserting registers in any address order through
`DataArea::insertRegister` keeps each stored sequence strictly sorted
by address with no duplicate addresses, and an insertion whose address
is already present throws `std::invalid_argument` (before the vector is
modified). -/
theorem claim9_insertion_sorted_nodup :
    ∀ rs : List (Reg Bool),
      sortedByAddr (insertAllLoose rs) ∧
      ((insertAllLoose rs).map (fun r => r.addr)).Nodup ∧
      (∀ (acc : List (Reg Bool)) (r : Reg Bool), registerExists acc r.addr = true →
        insertRegister acc r = .error .invalidArgument) := by
  intro rs
  have hsorted : sortedByAddr (insertAllLoose rs) :=
    sortedByAddr_foldl_insert rs [] List.Pairwise.nil
  exact ⟨hsorted, nodupAddr_of_sorted hsorted,
    fun acc r h => insertRegister_error_of_exists acc r h⟩

/-- Witness for C9 on a concrete out-of-order insertion sequence with a
duplicate. -/
theorem claim9_witness :
    sortedByAddr (insertAllLoose [(⟨5, true⟩ : Reg Bool), ⟨1, false⟩, ⟨3, true⟩, ⟨1, true⟩]) ∧
    ((insertAllLoose [(⟨5, true⟩ : Reg Bool), ⟨1, false⟩, ⟨3, true⟩, ⟨1, true⟩]).map
      (fun r => r.addr)).Nodup ∧
    insertRegister [(⟨3, true⟩ : Reg Bool)] ⟨3, false⟩ = .error .invalidArgument := by
  refine ⟨(claim9_insertion_sorted_nodup _).1, (claim9_insertion_sorted_nodup _).2.1,
    (claim9_insertion_sorted_nodup
      [(⟨5, true⟩ : Reg Bool), ⟨1, false⟩, ⟨3, true⟩, ⟨1, true⟩]).2.2
      [⟨3, true⟩] ⟨3, false⟩ (by decide)⟩

/-- C10: `uint16ToTwoBytes` and `twoBytesToUint16` are mutually inverse
— recombining the two bytes of any 16-bit value gives the value back,
and splitting the word formed from any two bytes gives back exactly
those bytes. -/
theorem claim10_uint16_roundtrip :
    (∀ value : Nat, value < 65536 →
      twoBytesToUint16 (uint16ToTwoBytes value).1 (uint16ToTwoBytes value).2 = value) ∧
    (∀ msb lsb : Nat, msb < 256 → lsb < 256 →
      uint16ToTwoBytes (twoBytesToUint16 msb lsb) = (msb, lsb)) := by
  constructor
  · intro value hv
    rw [uint16ToTwoBytes_eq]
    simp only
    rw [twoBytesToUint16_eq _ _ (by omega) (by omega)]
    omega
  · intro msb lsb hm hl
    rw [twoBytesToUint16_eq _ _ hm hl, uint16ToTwoBytes_eq, Prod.mk.injEq]
    constructor <;> omega

/-- Witness for C10 at the word 0x1234 and the byte pair (0x12, 0x34). -/
theorem claim10_witness :
    twoBytesToUint16 (uint16ToTwoBytes 0x1234).1 (uint16ToTwoBytes 0x1234).2 = 0x1234 ∧
    uint16ToTwoBytes (twoBytesToUint16 0x12 0x34) = (0x12, 0x34) :=
  ⟨claim10_uint16_roundtrip.1 0x1234 (by norm_num),
   claim10_uint16_roundtrip.2 0x12 0x34 (by norm_num) (by norm_num)⟩

theorem and255_eq_mod (x : Nat) : x &&& 0xFF = x % 256 := by
  rw [show (0xFF : Nat) = 2 ^ 8 - 1 by norm_num, Nat.and_pow_two_sub_one_eq_mod]

/-- C7: the spec says MBAP struct → bytes → struct is the identity and
bytes → struct → bytes reproduces the 7 header bytes, including the
unit identifier.  This holds for the `MBAPToBytes` defined in
`ModbusPDU.cpp` (first two conjuncts).  The duplicate definition of
`Modbus::MBAPToBytes` in `ADU.cpp` never pushes the unit-identifier
byte: it emits only 6 bytes (third conjunct), and re-parsing its output
reads past the end of the vector instead of returning the struct
(fourth conjunct), so the round trip fails for that copy. -/
theorem claim7_mbap_roundtrip :
    (∀ m : MBAP, m.transactionIdentifier < 65536 → m.protocolIdentifier < 65536 →
      m.length < 65536 → m.unitIdentifier < 256 →
      bytesToMBAP (MBAPToBytes m) = .ok m) ∧
    (∀ bytes : List Nat, bytes.length = 7 → (∀ b ∈ bytes, b < 256) →
      (bytesToMBAP bytes).map MBAPToBytes = .ok bytes) ∧
    MBAPToBytesADU ⟨0x0102, 0x0000, 0x0006, 0x11⟩ = [0x01, 0x02, 0x00, 0x00, 0x00, 0x06] ∧
    bytesToMBAP (MBAPToBytesADU ⟨0x0102, 0x0000, 0x0006, 0x11⟩) = .error .oobRead := by
  refine ⟨?_, ?_, rfl, rfl⟩
  · rintro ⟨t, p, le, u⟩ ht hp hle hu
    dsimp only at ht hp hle hu
    simp only [MBAPToBytes, bytesToMBAP, readByte, List.length_cons, List.length_nil,
      List.getElem?_cons_zero, List.getElem?_cons_succ, and255_eq_mod]
    rw [if_neg (by omega)]
    simp only [Except_ok_bind, Except.ok.injEq, MBAP.mk.injEq]
    rw [or_byte_eq_add _ _ (by omega), or_byte_eq_add _ _ (by omega),
      or_byte_eq_add _ _ (by omega)]
    simp only [Nat.shiftRight_eq_div_pow, show (2 : Nat) ^ 8 = 256 from by norm_num]
    refine ⟨by omega, by omega, by omega, by omega⟩
  · intro bytes hlen hbnd
    rcases bytes with _ | ⟨b0, bytes⟩
    · simp at hlen
    rcases bytes with _ | ⟨b1, bytes⟩
    · simp at hlen
    rcases bytes with _ | ⟨b2, bytes⟩
    · simp at hlen
    rcases bytes with _ | ⟨b3, bytes⟩
    · simp at hlen
    rcases bytes with _ | ⟨b4, bytes⟩
    · simp at hlen
    rcases bytes with _ | ⟨b5, bytes⟩
    · simp at hlen
    rcases bytes with _ | ⟨b6, bytes⟩
    · simp at hlen
    rcases bytes with _ | ⟨b7, bytes⟩
    swap
    · simp at hlen
    have h0 : b0 < 256 := hbnd b0 (by simp)
    have h1 : b1 < 256 := hbnd b1 (by simp)
    have h2 : b2 < 256 := hbnd b2 (by simp)
    have h3 : b3 < 256 := hbnd b3 (by simp)
    have h4 : b4 < 256 := hbnd b4 (by simp)
    have h5 : b5 < 256 := hbnd b5 (by simp)
    have h6 : b6 < 256 := hbnd b6 (by simp)
    simp only [bytesToMBAP, readByte, List.length_cons, List.length_nil,
      List.getElem?_cons_zero, List.getElem?_cons_succ]
    rw [if_neg (by omega)]
    simp only [Except_ok_bind, Except.map, MBAPToBytes, and255_eq_mod, Except.ok.injEq]
    rw [or_byte_eq_add _ _ (by omega), or_byte_eq_add _ _ (by omega),
      or_byte_eq_add _ _ (by omega)]
    simp only [Nat.shiftRight_eq_div_pow, show (2 : Nat) ^ 8 = 256 from by norm_num,
      List.cons.injEq, and_true]
    refine ⟨by omega, by omega, by omega, by omega, by omega, by omega, by omega⟩

/-- Witness for C7's universally quantified conjuncts: the round trip at
header `00 01 00 00 00 06 01` (the spec's MBAP-echo scenario). -/
theorem claim7_witness :
    bytesToMBAP (MBAPToBytes ⟨1, 0, 6, 1⟩) = .ok ⟨1, 0, 6, 1⟩ ∧
    (bytesToMBAP [0x00, 0x01, 0x00, 0x00, 0x00, 0x06, 0x01]).map MBAPToBytes =
      .ok [0x00, 0x01, 0x00, 0x00, 0x00, 0x06, 0x01] :=
  ⟨claim7_mbap_roundtrip.1 ⟨1, 0, 6, 1⟩ (by norm_num) (by norm_num) (by norm_num)
      (by norm_num),
   claim7_mbap_roundtrip.2.1 [0x00, 0x01, 0x00, 0x00, 0x00, 0x06, 0x01] (by norm_num)
      (by decide)⟩

/-- C8: the spec says a header of fewer than 7 bytes always fails with a
malformed-frame error, and parsing never reads past the end of a
7-byte-or-longer input.  The code's guard is `bytes.size() < 6`, one
short: a 6-byte input passes the guard and the unconditional read of
`bytes[6]` goes out of bounds (first conjunct) instead of failing as
malformed; inputs shorter than 6 are rejected with
`std::invalid_argument` (second conjunct), and inputs of at least 7
bytes are parsed without reading past the end (third conjunct). -/
theorem claim8_short_header_parsing :
    bytesToMBAP [0x00, 0x01, 0x00, 0x00, 0x00, 0x06] = .error .oobRead ∧
    (∀ bytes : List Nat, bytes.length < 6 → bytesToMBAP bytes = .error .invalidArgument) ∧
    (∀ bytes : List Nat, 7 ≤ bytes.length → ∃ m, bytesToMBAP bytes = .ok m) := by
  refine ⟨rfl, ?_, ?_⟩
  · intro bytes h
    rw [bytesToMBAP, if_pos h]
  · intro bytes h
    have g : ∀ i : Nat, i < 7 → bytes[i]? = some (bytes.getD i 0) := by
      intro i hi
      rcases hx : bytes[i]? with _ | b
      · rw [List.getElem?_eq_none_iff] at hx
        omega
      · rw [List.getD_eq_getElem?_getD, hx]
        rfl
    rw [bytesToMBAP, if_neg (by omega)]
    simp only [readByte, g 0 (by norm_num), g 1 (by norm_num), g 2 (by norm_num),
      g 3 (by norm_num), g 4 (by norm_num), g 5 (by norm_num), g 6 (by norm_num),
      Except_ok_bind]
    exact ⟨_, rfl⟩

/-- Witness for C8's quantified conjuncts: a 3-byte header is rejected
as malformed, and a full 7-byte header parses. -/
theorem claim8_witness :
    bytesToMBAP [0x00, 0x01, 0x00] = .error .invalidArgument ∧
    ∃ m, bytesToMBAP [0x00, 0x01, 0x00, 0x00, 0x00, 0x06, 0x01] = .ok m :=
  ⟨claim8_short_header_parsing.2.1 [0x00, 0x01, 0x00] (by norm_num),
   claim8_short_header_parsing.2.2 [0x00, 0x01, 0x00, 0x00, 0x00, 0x06, 0x01] (by norm_num)⟩

/-! ## Read-path response lemmas -/

theorem getRegisters_error_eq {α : Type} {xs : List (Reg α)} {s l : Nat} {e : CppException}
    (h : getRegisters xs s l = .error e) : e = .outOfRange := by
  simp only [getRegisters] at h
  split at h
  · exact ((Except.error.injEq _ _).mp h).symm
  · exact Except.noConfusion h

theorem toByte_lt_128 (fc : FunctionCode) : fc.toByte < 128 := by
  cases fc <;> decide

theorem buildResponseForBooleanRegisters_ne_exception (fc : FunctionCode)
    (regs : List (Reg Bool)) (c : Nat) :
    buildResponseForBooleanRegisters fc regs ≠ buildExceptionResponse fc c := by
  intro h
  have hfc := toByte_lt_128 fc
  simp only [buildResponseForBooleanRegisters, buildExceptionResponse,
    List.cons.injEq] at h
  omega

theorem getReadCoilsResponse_ok {da : DataArea} {d0 d1 d2 d3 : Nat} {regs : List (Reg Bool)}
    (h : getRegisters da.coils (twoBytesToUint16 d0 d1) (twoBytesToUint16 d2 d3) = .ok regs) :
    getReadCoilsResponse [d0, d1, d2, d3] da =
      buildResponseForBooleanRegisters .ReadCoils regs := by
  simp only [getReadCoilsResponse, getStartingAddressAndQuantityOfRegisters,
    List.getD_cons_zero, List.getD_cons_succ]
  rw [h]

theorem getReadCoilsResponse_error {da : DataArea} {d0 d1 d2 d3 : Nat} {e : CppException}
    (h : getRegisters da.coils (twoBytesToUint16 d0 d1) (twoBytesToUint16 d2 d3) = .error e) :
    getReadCoilsResponse [d0, d1, d2, d3] da = buildExceptionResponse .ReadCoils 0x02 := by
  simp only [getReadCoilsResponse, getStartingAddressAndQuantityOfRegisters,
    List.getD_cons_zero, List.getD_cons_succ]
  rw [h]

theorem getReadDiscreteInputsResponse_ok {da : DataArea} {d0 d1 d2 d3 : Nat}
    {regs : List (Reg Bool)}
    (h : getRegisters da.discreteInputs (twoBytesToUint16 d0 d1) (twoBytesToUint16 d2 d3)
      = .ok regs) :
    getReadDiscreteInputsResponse [d0, d1, d2, d3] da =
      buildResponseForBooleanRegisters .ReadDiscreteInputs regs := by
  simp only [getReadDiscreteInputsResponse, getStartingAddressAndQuantityOfRegisters,
    List.getD_cons_zero, List.getD_cons_succ]
  rw [h]

theorem getReadDiscreteInputsResponse_error {da : DataArea} {d0 d1 d2 d3 : Nat}
    {e : CppException}
    (h : getRegisters da.discreteInputs (twoBytesToUint16 d0 d1) (twoBytesToUint16 d2 d3)
      = .error e) :
    getReadDiscreteInputsResponse [d0, d1, d2, d3] da =
      buildExceptionResponse .ReadDiscreteInputs 0x02 := by
  simp only [getReadDiscreteInputsResponse, getStartingAddressAndQuantityOfRegisters,
    List.getD_cons_zero, List.getD_cons_succ]
  rw [h]

theorem calculateBytesFromBits_eq (n : Nat) : calculateBytesFromBits n = (n + 7) / 8 := by
  simp only [calculateBytesFromBits, beq_iff_eq]
  split <;> omega

/-- C2: the spec says a Read Coils / Read Discrete Inputs request with
quantity 0 or above 2000 yields exception 0x03.  The code never
validates the quantity: with coils 0-9 stored, quantity 0 yields the
success response `01 00` and quantity 2001 yields the success response
`01 02 FF 01`, not `81 03`. -/
theorem claim2_counterexample :
    getReadCoilsResponse [0x00, 0x01, 0x00, 0x00] daTen = [0x01, 0x00] ∧
    getReadCoilsResponse [0x00, 0x01, 0x00, 0x00] daTen ≠
      buildExceptionResponse .ReadCoils 0x03 ∧
    getReadCoilsResponse [0x00, 0x01, 0x07, 0xD1] daTen = [0x01, 0x02, 0xFF, 0x01] ∧
    getReadCoilsResponse [0x00, 0x01, 0x07, 0xD1] daTen ≠
      buildExceptionResponse .ReadCoils 0x03 := by
  exact ⟨rfl, by decide, rfl, by decide⟩

/-- C2 (amended): the boolean read handlers perform no quantity
validation and never return exception 0x03; they return exception 0x02
exactly when the range lookup fails, i.e. when every stored address is
below the start address or every stored address is above
`start + qty - 1`; in every other case (missing interior addresses
included) they return a success response. -/
theorem claim2_reads_never_return_illegal_data_value :
    ∀ (da : DataArea) (d0 d1 d2 d3 : Nat),
      sortedByAddr da.coils → sortedByAddr da.discreteInputs →
      (getReadCoilsResponse [d0, d1, d2, d3] da = buildExceptionResponse .ReadCoils 0x02 ↔
        (∀ r ∈ da.coils, r.addr < ((twoBytesToUint16 d0 d1 : Nat) : Int)) ∨
          (∀ r ∈ da.coils, ((twoBytesToUint16 d0 d1 : Nat) : Int) +
            ((twoBytesToUint16 d2 d3 : Nat) : Int) - 1 < r.addr)) ∧
      getReadCoilsResponse [d0, d1, d2, d3] da ≠ buildExceptionResponse .ReadCoils 0x03 ∧
      (getReadDiscreteInputsResponse [d0, d1, d2, d3] da =
          buildExceptionResponse .ReadDiscreteInputs 0x02 ↔
        (∀ r ∈ da.discreteInputs, r.addr < ((twoBytesToUint16 d0 d1 : Nat) : Int)) ∨
          (∀ r ∈ da.discreteInputs, ((twoBytesToUint16 d0 d1 : Nat) : Int) +
            ((twoBytesToUint16 d2 d3 : Nat) : Int) - 1 < r.addr)) ∧
      getReadDiscreteInputsResponse [d0, d1, d2, d3] da ≠
        buildExceptionResponse .ReadDiscreteInputs 0x03 := by
  intro da d0 d1 d2 d3 hsc hsd
  have hexcne : ∀ fc : FunctionCode,
      buildExceptionResponse fc 0x02 ≠ buildExceptionResponse fc 0x03 := by
    intro fc h
    simp only [buildExceptionResponse, List.cons.injEq] at h
    omega
  refine ⟨?_, ?_, ?_, ?_⟩
  · constructor
    · intro h
      rcases hres : getRegisters da.coils (twoBytesToUint16 d0 d1) (twoBytesToUint16 d2 d3)
        with e | regs
      · have he := getRegisters_error_eq hres
        subst he
        exact (getRegisters_error_iff da.coils _ _ hsc).mp hres
      · rw [getReadCoilsResponse_ok hres] at h
        exact absurd h (buildResponseForBooleanRegisters_ne_exception _ _ _)
    · intro h
      have herr := (getRegisters_error_iff da.coils (twoBytesToUint16 d0 d1)
        (twoBytesToUint16 d2 d3) hsc).mpr h
      exact getReadCoilsResponse_error herr
  · intro h
    rcases hres : getRegisters da.coils (twoBytesToUint16 d0 d1) (twoBytesToUint16 d2 d3)
      with e | regs
    · rw [getReadCoilsResponse_error hres] at h
      exact hexcne _ h
    · rw [getReadCoilsResponse_ok hres] at h
      exact buildResponseForBooleanRegisters_ne_exception _ _ _ h
  · constructor
    · intro h
      rcases hres : getRegisters da.discreteInputs (twoBytesToUint16 d0 d1)
        (twoBytesToUint16 d2 d3) with e | regs
      · have he := getRegisters_error_eq hres
        subst he
        exact (getRegisters_error_iff da.discreteInputs _ _ hsd).mp hres
      · rw [getReadDiscreteInputsResponse_ok hres] at h
        exact absurd h (buildResponseForBooleanRegisters_ne_exception _ _ _)
    · intro h
      have herr := (getRegisters_error_iff da.discreteInputs (twoBytesToUint16 d0 d1)
        (twoBytesToUint16 d2 d3) hsd).mpr h
      exact getReadDiscreteInputsResponse_error herr
  · intro h
    rcases hres : getRegisters da.discreteInputs (twoBytesToUint16 d0 d1)
      (twoBytesToUint16 d2 d3) with e | regs
    · rw [getReadDiscreteInputsResponse_error hres] at h
      exact hexcne _ h
    · rw [getReadDiscreteInputsResponse_ok hres] at h
      exact buildResponseForBooleanRegisters_ne_exception _ _ _ h

/-- Witness for C2's amended theorem: on the ten-coil area, a read at
start 15 is answered with exception 0x02 (all stored addresses are
below 15), and reads never produce `81 03`. -/
theorem claim2_witness :
    getReadCoilsResponse [0x00, 0x0F, 0x00, 0x0A] daTen =
      buildExceptionResponse .ReadCoils 0x02 ∧
    getReadCoilsResponse [0x00, 0x01, 0x00, 0x00] daTen ≠
      buildExceptionResponse .ReadCoils 0x03 := by
  constructor
  · exact (claim2_reads_never_return_illegal_data_value daTen 0x00 0x0F 0x00 0x0A
      (by decide) (by decide)).1.mpr (Or.inl (by decide))
  · exact (claim2_reads_never_return_illegal_data_value daTen 0x00 0x01 0x00 0x00
      (by decide) (by decide)).2.1

/-- C4: the spec says a successful boolean read of quantity `qty` has
total length `2 + ceil(qty/8)` and byte 1 equal to `ceil(qty/8)`.  The
code computes the byte count from the number of registers actually
retrieved, which is smaller than `qty` when the requested range has
gaps: with coils (resp. discrete inputs) stored only at addresses 0
and 9, the request `start = 0, qty = 10` succeeds on either handler
and returns 3 bytes (`01 01 03` resp. `02 01 03`), not the claimed
`2 + ceil(10/8) = 4`. -/
theorem claim4_counterexample :
    getReadCoilsResponse [0x00, 0x00, 0x00, 0x0A] daGap = [0x01, 0x01, 0x03] ∧
    (getReadCoilsResponse [0x00, 0x00, 0x00, 0x0A] daGap).length ≠ 2 + (10 + 7) / 8 ∧
    getReadDiscreteInputsResponse [0x00, 0x00, 0x00, 0x0A] daGapDI = [0x02, 0x01, 0x03] ∧
    (getReadDiscreteInputsResponse [0x00, 0x00, 0x00, 0x0A] daGapDI).length ≠
      2 + (10 + 7) / 8 := by
  exact ⟨rfl, by decide, rfl, by decide⟩

set_option maxHeartbeats 1000000 in
/-- The format of a boolean read success response built from the `k`
registers actually retrieved: total length `2 + ceil(k/8)`; byte 1
equals `ceil(k/8)` whenever `k ≤ 2000` (the per-request store sizes the
tests build; for larger `k` the `std::byte` cast truncates the count
modulo 256); retrieved bit `i` sits in bit `i % 8` of data byte
`i / 8`, and positions past `k` up to the end of the last data byte
read as zero. -/
theorem booleanResponse_format (fc : FunctionCode) (regs : List (Reg Bool)) :
    (buildResponseForBooleanRegisters fc regs).length = 2 + (regs.length + 7) / 8 ∧
    (regs.length ≤ 2000 →
      (buildResponseForBooleanRegisters fc regs).getD 1 0 = (regs.length + 7) / 8) ∧
    (∀ i : Nat, i < 8 * ((regs.length + 7) / 8) →
      Nat.testBit ((buildResponseForBooleanRegisters fc regs).getD (2 + i / 8) 0)
        (i % 8) = (regs.map (fun r => r.val)).getD i false) := by
  have hpacklen : (packBooleanRegistersIntoBytes (regs.map (fun r => r.val))).length
      = (regs.length + 7) / 8 := by
    rw [length_packBooleanRegistersIntoBytes, List.length_map, calculateBytesFromBits_eq]
  have hskip : ∀ (x y : Nat) (l : List Nat) (n : Nat),
      (x :: y :: l).getD (2 + n) 0 = l.getD n 0 := by
    intro x y l n
    rw [show 2 + n = (n + 1) + 1 by omega, List.getD_cons_succ, List.getD_cons_succ]
  refine ⟨?_, ?_, ?_⟩
  · simp only [buildResponseForBooleanRegisters, List.length_cons]
    rw [hpacklen]
    omega
  · intro hbound
    simp only [buildResponseForBooleanRegisters]
    show calculateBytesFromBits regs.length % 256 = (regs.length + 7) / 8
    rw [calculateBytesFromBits_eq]
    omega
  · intro i hi
    simp only [buildResponseForBooleanRegisters]
    rw [hskip]
    exact testBit_packBooleanRegistersIntoBytes (regs.map (fun r => r.val)) i
      (by rw [hpacklen]; omega)

set_option maxHeartbeats 1000000 in
/-- C4 (amended): for every successful Read Coils or Read Discrete
Inputs request, with `k` the number of registers actually retrieved
(`k = qty` whenever every address of the requested range is present),
the response has length `2 + ceil(k/8)`, byte 1 equals `ceil(k/8)`
(for `k ≤ 2000`; past that the byte-count cast truncates modulo 256),
retrieved bit `i` is placed in bit `i % 8` of data byte `i / 8`, and
the unused trailing bits of the last data byte are zero. -/
theorem claim4_boolean_read_format :
    ∀ (da : DataArea) (d0 d1 d2 d3 : Nat) (regs : List (Reg Bool)),
      (sortedByAddr da.coils →
        getRegisters da.coils (twoBytesToUint16 d0 d1) (twoBytesToUint16 d2 d3) = .ok regs →
        (getReadCoilsResponse [d0, d1, d2, d3] da).length = 2 + (regs.length + 7) / 8 ∧
        (regs.length ≤ 2000 →
          (getReadCoilsResponse [d0, d1, d2, d3] da).getD 1 0 = (regs.length + 7) / 8) ∧
        (∀ i : Nat, i < 8 * ((regs.length + 7) / 8) →
          Nat.testBit ((getReadCoilsResponse [d0, d1, d2, d3] da).getD (2 + i / 8) 0)
            (i % 8) = (regs.map (fun r => r.val)).getD i false) ∧
        ((∀ a : Int, ((twoBytesToUint16 d0 d1 : Nat) : Int) ≤ a →
            a ≤ ((twoBytesToUint16 d0 d1 : Nat) : Int) +
              ((twoBytesToUint16 d2 d3 : Nat) : Int) - 1 →
            ∃ r ∈ da.coils, r.addr = a) →
          regs.length = twoBytesToUint16 d2 d3)) ∧
      (sortedByAddr da.discreteInputs →
        getRegisters da.discreteInputs (twoBytesToUint16 d0 d1) (twoBytesToUint16 d2 d3)
          = .ok regs →
        (getReadDiscreteInputsResponse [d0, d1, d2, d3] da).length
          = 2 + (regs.length + 7) / 8 ∧
        (regs.length ≤ 2000 →
          (getReadDiscreteInputsResponse [d0, d1, d2, d3] da).getD 1 0
            = (regs.length + 7) / 8) ∧
        (∀ i : Nat, i < 8 * ((regs.length + 7) / 8) →
          Nat.testBit ((getReadDiscreteInputsResponse [d0, d1, d2, d3] da).getD (2 + i / 8) 0)
            (i % 8) = (regs.map (fun r => r.val)).getD i false) ∧
        ((∀ a : Int, ((twoBytesToUint16 d0 d1 : Nat) : Int) ≤ a →
            a ≤ ((twoBytesToUint16 d0 d1 : Nat) : Int) +
              ((twoBytesToUint16 d2 d3 : Nat) : Int) - 1 →
            ∃ r ∈ da.discreteInputs, r.addr = a) →
          regs.length = twoBytesToUint16 d2 d3)) := by
  intro da d0 d1 d2 d3 regs
  constructor
  · intro hs hok
    have hresp := getReadCoilsResponse_ok hok
    have hfmt := booleanResponse_format FunctionCode.ReadCoils regs
    rw [hresp]
    refine ⟨hfmt.1, hfmt.2.1, hfmt.2.2, ?_⟩
    intro hall
    have hfilter := getRegisters_ok_eq hs hok
    rw [hfilter, length_filter_of_full_range da.coils (twoBytesToUint16 d0 d1)
      (twoBytesToUint16 d2 d3) hs hall]
  · intro hs hok
    have hresp := getReadDiscreteInputsResponse_ok hok
    have hfmt := booleanResponse_format FunctionCode.ReadDiscreteInputs regs
    rw [hresp]
    refine ⟨hfmt.1, hfmt.2.1, hfmt.2.2, ?_⟩
    intro hall
    have hfilter := getRegisters_ok_eq hs hok
    rw [hfilter, length_filter_of_full_range da.discreteInputs (twoBytesToUint16 d0 d1)
      (twoBytesToUint16 d2 d3) hs hall]

/-- Witness for C4's amended theorem: reading 9 coils — and 9 discrete
inputs — starting at address 1 from the fully populated ten-register
area returns a 4-byte response with byte count 2, bit 8 set and bit 9
(trailing) zero. -/
theorem claim4_witness :
    (getReadCoilsResponse [0x00, 0x01, 0x00, 0x09] daTen).length = 2 + (9 + 7) / 8 ∧
    (getReadCoilsResponse [0x00, 0x01, 0x00, 0x09] daTen).getD 1 0 = (9 + 7) / 8 ∧
    Nat.testBit ((getReadCoilsResponse [0x00, 0x01, 0x00, 0x09] daTen).getD (2 + 8 / 8) 0)
      (8 % 8) = true ∧
    Nat.testBit ((getReadCoilsResponse [0x00, 0x01, 0x00, 0x09] daTen).getD (2 + 9 / 8) 0)
      (9 % 8) = false ∧
    (getReadDiscreteInputsResponse [0x00, 0x01, 0x00, 0x09] daTen).length
      = 2 + (9 + 7) / 8 ∧
    (getReadDiscreteInputsResponse [0x00, 0x01, 0x00, 0x09] daTen).getD 1 0
      = (9 + 7) / 8 ∧
    Nat.testBit ((getReadDiscreteInputsResponse [0x00, 0x01, 0x00, 0x09] daTen).getD
      (2 + 8 / 8) 0) (8 % 8) = true := by
  have h := claim4_boolean_read_format daTen 0x00 0x01 0x00 0x09
    ((getRegisters daTen.coils (twoBytesToUint16 0x00 0x01)
      (twoBytesToUint16 0x00 0x09)).toOption.getD [])
  have hc := h.1 (by decide) rfl
  have hd := h.2 (by decide) rfl
  refine ⟨hc.1, hc.2.1 (by decide), ?_, ?_, hd.1, hd.2.1 (by decide), ?_⟩
  · rw [hc.2.2.1 8 (by decide)]
    decide
  · rw [hc.2.2.1 9 (by decide)]
    decide
  · rw [hd.2.2.1 8 (by decide)]
    decide

theorem updateRegister_val {α : Type} (cs : List (Reg α)) (a : Int) (v : α) :
    ∀ r ∈ updateRegister cs a v, r.addr = a → r.val = v := by
  intro r hr haddr
  rw [updateRegister] at hr
  rcases List.mem_map.mp hr with ⟨r0, hr0, rfl⟩
  by_cases h : (r0.addr == a) = true
  · rw [if_pos h]
  · rw [if_neg h] at haddr ⊢
    exact absurd (by simpa using haddr) (by simpa using h)

/-- C6: for Write Single Coil, a value field other than 0xFF00 or
0x0000 yields exception 0x03; a legal value at an absent address yields
exception 0x02; on success the response is the five request bytes
verbatim and the addressed coil is set to `true` for 0xFF00 and
`false` for 0x0000.  (`DataArea::writeSingletCoil` itself is only
declared under `src`; its body is modelled from the spec.) -/
theorem claim6_write_single_coil :
    ∀ (da : DataArea) (d0 d1 d2 d3 : Nat),
      (twoBytesToUint16 d2 d3 ≠ 0xFF00 → twoBytesToUint16 d2 d3 ≠ 0x0000 →
        getWriteSingleCoilResponse [d0, d1, d2, d3] da =
          (buildExceptionResponse .WriteSingleCoil 0x03, da)) ∧
      ((twoBytesToUint16 d2 d3 = 0xFF00 ∨ twoBytesToUint16 d2 d3 = 0x0000) →
        registerExists da.coils ((twoBytesToUint16 d0 d1 : Nat) : Int) = false →
        getWriteSingleCoilResponse [d0, d1, d2, d3] da =
          (buildExceptionResponse .WriteSingleCoil 0x02, da)) ∧
      ((twoBytesToUint16 d2 d3 = 0xFF00 ∨ twoBytesToUint16 d2 d3 = 0x0000) →
        registerExists da.coils ((twoBytesToUint16 d0 d1 : Nat) : Int) = true →
        getWriteSingleCoilResponse [d0, d1, d2, d3] da =
          ([0x05, d0, d1, d2, d3],
            { da with coils := (updateRegister da.coils
                ((twoBytesToUint16 d0 d1 : Nat) : Int)
                (twoBytesToUint16 d2 d3 == 0xFF00)) }) ∧
        (∀ r ∈ updateRegister da.coils ((twoBytesToUint16 d0 d1 : Nat) : Int)
            (twoBytesToUint16 d2 d3 == 0xFF00),
          r.addr = ((twoBytesToUint16 d0 d1 : Nat) : Int) →
            r.val = (twoBytesToUint16 d2 d3 == 0xFF00))) := by
  intro da d0 d1 d2 d3
  refine ⟨?_, ?_, ?_⟩
  · intro hv1 hv2
    simp only [getWriteSingleCoilResponse, getStartingAddressAndQuantityOfRegisters,
      List.getD_cons_zero, List.getD_cons_succ]
    rw [if_pos (by simp [hv1, hv2])]
  · intro hv hex
    simp only [getWriteSingleCoilResponse, getStartingAddressAndQuantityOfRegisters,
      List.getD_cons_zero, List.getD_cons_succ]
    rw [if_neg (by rcases hv with hv | hv <;> simp [hv])]
    rw [writeSingletCoil, if_neg (by simp [hex])]
  · intro hv hex
    refine ⟨?_, updateRegister_val _ _ _⟩
    simp only [getWriteSingleCoilResponse, getStartingAddressAndQuantityOfRegisters,
      List.getD_cons_zero, List.getD_cons_succ]
    rw [if_neg (by rcases hv with hv | hv <;> simp [hv])]
    rw [writeSingletCoil, if_pos hex]
    rfl

/-- Witness for C6 at concrete requests against the ten-coil area:
value 0xFF01 is rejected with 0x03, a legal write to absent address 15
is rejected with 0x02, and writing 0x0000 to address 1 echoes the
request and stores `false`. -/
theorem claim6_witness :
    getWriteSingleCoilResponse [0x00, 0x01, 0xFF, 0x01] daTen =
      (buildExceptionResponse .WriteSingleCoil 0x03, daTen) ∧
    getWriteSingleCoilResponse [0x00, 0x0F, 0xFF, 0x00] daTen =
      (buildExceptionResponse .WriteSingleCoil 0x02, daTen) ∧
    getWriteSingleCoilResponse [0x00, 0x01, 0x00, 0x00] daTen =
      ([0x05, 0x00, 0x01, 0x00, 0x00],
        { daTen with coils := (updateRegister daTen.coils
            ((twoBytesToUint16 0x00 0x01 : Nat) : Int)
            (twoBytesToUint16 0x00 0x00 == 0xFF00)) }) := by
  refine ⟨(claim6_write_single_coil daTen 0x00 0x01 0xFF 0x01).1 (by decide) (by decide),
    (claim6_write_single_coil daTen 0x00 0x0F 0xFF 0x00).2.1 (by decide) (by decide),
    ((claim6_write_single_coil daTen 0x00 0x01 0x00 0x00).2.2 (by decide) (by decide)).1⟩

/-- C5: the spec says Write Multiple Coils rejects any quantity outside
`[1, 1968]` with exception 0x03.  The code compares the quantity
against `MAX_COILS = 2000`, not 1968, and has no lower bound: a request
with quantity 0 (and byte count 0) passes the value checks and is
answered with the success response `0F 00 01 00 00`, not `8F 03`. -/
theorem claim5_counterexample :
    getWriteMultipleCoilsResponse [0x00, 0x01, 0x00, 0x00, 0x00] daTen =
      .ok ([0x0F, 0x00, 0x01, 0x00, 0x00], daTen) ∧
    ([0x0F, 0x00, 0x01, 0x00, 0x00] : List Nat) ≠
      buildExceptionResponse .WriteMultipleCoils 0x03 := by
  exact ⟨rfl, by decide⟩

/-- C5 (amended): Write Multiple Coils returns exception 0x03 when the
quantity exceeds 2000 (`MAX_COILS`; quantity 0 is not rejected), when
the declared byte count differs from `ceil(qty/8)`, or when fewer than
that many data bytes are present; only after those checks does it
return exception 0x02, when the coil-range lookup fails; otherwise it
unpacks the data bytes least-significant bit first, writes the first
`qty` booleans to coils `start .. start+qty-1` in ascending order
(provided every one of those addresses is present — a missing address
would make the uncaught write throw), and responds with the function
code followed by the four start/quantity request bytes. -/
theorem claim5_write_multiple_coils_validation :
    ∀ (da : DataArea) (d0 d1 d2 d3 d4 : Nat) (rest : List Nat),
      ((twoBytesToUint16 d2 d3 > 2000 ∨
          d4 ≠ calculateBytesFromBits (twoBytesToUint16 d2 d3) ∨
          calculateBytesFromBits (twoBytesToUint16 d2 d3) > rest.length) →
        getWriteMultipleCoilsResponse (d0 :: d1 :: d2 :: d3 :: d4 :: rest) da =
          .ok (buildExceptionResponse .WriteMultipleCoils 0x03, da)) ∧
      (¬ (twoBytesToUint16 d2 d3 > 2000 ∨
          d4 ≠ calculateBytesFromBits (twoBytesToUint16 d2 d3) ∨
          calculateBytesFromBits (twoBytesToUint16 d2 d3) > rest.length) →
        getRegisters da.coils (twoBytesToUint16 d0 d1) (twoBytesToUint16 d2 d3) =
          .error .outOfRange →
        getWriteMultipleCoilsResponse (d0 :: d1 :: d2 :: d3 :: d4 :: rest) da =
          .ok (buildExceptionResponse .WriteMultipleCoils 0x02, da)) ∧
      (¬ (twoBytesToUint16 d2 d3 > 2000 ∨
          d4 ≠ calculateBytesFromBits (twoBytesToUint16 d2 d3) ∨
          calculateBytesFromBits (twoBytesToUint16 d2 d3) > rest.length) →
        ∀ found, getRegisters da.coils (twoBytesToUint16 d0 d1) (twoBytesToUint16 d2 d3) =
          .ok found →
        (∀ i : Nat, i < twoBytesToUint16 d2 d3 →
          registerExists da.coils
            (((twoBytesToUint16 d0 d1 : Nat) : Int) + (i : Int)) = true) →
        getWriteMultipleCoilsResponse (d0 :: d1 :: d2 :: d3 :: d4 :: rest) da =
          .ok ([0x0F, d0, d1, d2, d3],
            { da with coils := (da.coils.map (fun r =>
                if ((twoBytesToUint16 d0 d1 : Nat) : Int) ≤ r.addr ∧
                    r.addr < ((twoBytesToUint16 d0 d1 : Nat) : Int) +
                      ((twoBytesToUint16 d2 d3 : Nat) : Int) then
                  { r with val := (((rest.take d4).flatMap byteToBooleans).getD
                      (r.addr - ((twoBytesToUint16 d0 d1 : Nat) : Int)).toNat false) }
                else r)) })) := by
  intro da d0 d1 d2 d3 d4 rest
  refine ⟨?_, ?_, ?_⟩
  · intro hcond
    simp only [getWriteMultipleCoilsResponse, getStartingAddressAndQuantityOfRegisters,
      List.getD_cons_zero, List.getD_cons_succ, List.length_cons]
    rw [show rest.length + 1 + 1 + 1 + 1 + 1 - 5 = rest.length from by omega,
      if_pos hcond]
  · intro hcond herr
    simp only [getWriteMultipleCoilsResponse, getStartingAddressAndQuantityOfRegisters,
      List.getD_cons_zero, List.getD_cons_succ, List.length_cons]
    rw [show rest.length + 1 + 1 + 1 + 1 + 1 - 5 = rest.length from by omega,
      if_neg hcond, herr]
  · intro hcond found hok hall
    simp only [getWriteMultipleCoilsResponse, getStartingAddressAndQuantityOfRegisters,
      List.getD_cons_zero, List.getD_cons_succ, List.length_cons]
    rw [show rest.length + 1 + 1 + 1 + 1 + 1 - 5 = rest.length from by omega,
      if_neg hcond, hok,
      show (d0 :: d1 :: d2 :: d3 :: d4 :: rest).drop 5 = rest from rfl,
      writeCoilsLoop_ok (twoBytesToUint16 d0 d1) (twoBytesToUint16 d2 d3)
        ((rest.take d4).flatMap byteToBooleans) hall]
    rfl

/-- Witness for C5's amended theorem: against the ten-coil area, byte
count 3 with quantity 16 is rejected with 0x03 (the spec's boundary
test); a well-formed request for an absent range is rejected with 0x02;
and writing two bits 0b01 at addresses 0-1 succeeds, echoing start and
quantity. -/
theorem claim5_witness :
    getWriteMultipleCoilsResponse [0x00, 0x00, 0x00, 0x10, 0x03, 0xFF, 0xFF, 0xFF] daTen =
      .ok (buildExceptionResponse .WriteMultipleCoils 0x03, daTen) ∧
    getWriteMultipleCoilsResponse [0x00, 0x14, 0x00, 0x02, 0x01, 0x01] daTen =
      .ok (buildExceptionResponse .WriteMultipleCoils 0x02, daTen) ∧
    getWriteMultipleCoilsResponse [0x00, 0x00, 0x00, 0x02, 0x01, 0x01] daTen =
      .ok ([0x0F, 0x00, 0x00, 0x00, 0x02],
        { daTen with coils := (daTen.coils.map (fun r =>
            if ((twoBytesToUint16 0x00 0x00 : Nat) : Int) ≤ r.addr ∧
                r.addr < ((twoBytesToUint16 0x00 0x00 : Nat) : Int) +
                  ((twoBytesToUint16 0x00 0x02 : Nat) : Int) then
              { r with val := ((([0x01].take 0x01).flatMap byteToBooleans).getD
                  (r.addr - ((twoBytesToUint16 0x00 0x00 : Nat) : Int)).toNat false) }
            else r)) }) := by
  refine ⟨(claim5_write_multiple_coils_validation daTen 0x00 0x00 0x00 0x10 0x03
      [0xFF, 0xFF, 0xFF]).1 (by decide),
    (claim5_write_multiple_coils_validation daTen 0x00 0x14 0x00 0x02 0x01 [0x01]).2.1
      (by decide) rfl,
    (claim5_write_multiple_coils_validation daTen 0x00 0x00 0x00 0x02 0x01 [0x01]).2.2
      (by decide)
      ((getRegisters daTen.coils (twoBytesToUint16 0x00 0x00)
        (twoBytesToUint16 0x00 0x02)).toOption.getD []) rfl
      (by decide)⟩

end Modbus
